import Mathlib

/-!
Shallow embedding of `src/pbt/core.py` (synchronous Population-Based Training).

Numeric values (scores, losses, hyperparameters, random draws) are modelled as
rationals `ℚ`: the Python code only multiplies, negates and compares them, and
all claims are about order/arithmetic structure, not float rounding.

Randomness (`np.random.uniform`) is modelled by explicit draw streams: a call
`np.random.uniform()` with no arguments is a draw `u ∈ [0,1)` taken from a
stream `Nat → ℚ`, and `np.random.uniform(a, b)` is `a + u * (b - a)`.

Python dictionaries are modelled as association lists `List (String × ℚ)`
(Python dicts preserve insertion order, as does a list).  A failed dict lookup
(`KeyError`) is modelled by `Except` with the error type `PyErr`.
-/

namespace PBT

/-- Errors the embedded code can raise.  `keyError k` models a raw Python
`KeyError` on key `k` (what `rand_scales[param]` raises for a missing key);
`configError msg` models a descriptive configuration error — the spec asks for
the latter, the code only ever produces the former. -/
inductive PyErr where
  | keyError (k : String)
  | configError (msg : String)
deriving DecidableEq, Repr

/-- `np.random.uniform(a, b)` given the unit draw `u ∈ [0,1)`. -/
def uniform (a b u : ℚ) : ℚ := a + u * (b - a)

/-- Python dict lookup `d[k]`: the value, or a raw `KeyError`. -/
def dictGet (d : List (String × ℚ)) (k : String) : Except PyErr ℚ :=
  match d.find? (fun p => p.1 == k) with
  | some p => Except.ok p.2
  | none => Except.error (PyErr.keyError k)

/-- The trainable unit (`self.model` in `Worker`): opaque weights plus the
mutable hyperparameters, with the capability operations the scheduler uses.
`model.model.get_weights()/set_weights()` in the Python code act on `weights`;
`model.set_hyperparameters(**hp)` replaces `hyperparameters`. -/
structure Model where
  weights : ℚ
  hyperparameters : List (String × ℚ)
deriving DecidableEq, Repr

def Model.get_weights (m : Model) : ℚ := m.weights

def Model.set_weights (m : Model) (w : ℚ) : Model := { m with weights := w }

def Model.set_hyperparameters (m : Model) (hp : List (String × ℚ)) : Model :=
  { m with hyperparameters := hp }

/-- The config dict: `generation`, `hyperparameters`, `trainer`, `evaluator`
(the four required top-level entries of the Python config dict). -/
structure Config where
  generation : Nat
  hyperparameters : List (String × ℚ)
  trainer : List (String × ℚ)
  evaluator : List (String × ℚ)
deriving DecidableEq, Repr

/-- One population member.  The Python `Worker` also stores the trainer and
evaluator functions; in the embedding those are fields of `PBTTrainer` (every
worker is constructed with the same two functions, so this is the same data).
`losses`/`score` are the Python attributes created by the first `train()` /
`evaluate()` call; before that call their value is never read, so a default
(`[]`, `0`) is harmless. -/
structure Worker where
  model : Model
  config : Config
  losses : List ℚ
  score : ℚ
deriving DecidableEq, Repr

instance : Inhabited Model := ⟨⟨0, []⟩⟩
instance : Inhabited Config := ⟨⟨0, [], [], []⟩⟩
instance : Inhabited Worker := ⟨⟨default, default, [], 0⟩⟩

/-- The caller-supplied collaborators: the model class (a factory from the
`hyperparameters` dict), the training function (mutates the model, returns the
loss list) and the evaluation function (returns the scalar score). -/
structure Collab where
  modelF : List (String × ℚ) → Model
  trainerF : Model → List (String × ℚ) → Model × List ℚ
  evaluatorF : Model → List (String × ℚ) → ℚ

/-- `Worker.__init__`: `self.model = model(**config['hyperparameters'])`. -/
def Worker.init (c : Collab) (config : Config) : Worker :=
  { model := c.modelF config.hyperparameters
    config := config
    losses := []
    score := 0 }

/-- `Worker.train`: `self.losses = self.trainer(self.model, **self.config['trainer'])`
(the training call may mutate the model). -/
def Worker.train (c : Collab) (w : Worker) : Worker :=
  let r := c.trainerF w.model w.config.trainer
  { w with model := r.1, losses := r.2 }

/-- `Worker.evaluate`: `self.score = self.evaluator(self.model, **self.config['evaluator'])`. -/
def Worker.evaluate (c : Collab) (w : Worker) : Worker :=
  { w with score := c.evaluatorF w.model w.config.evaluator }

/-- `Worker.run`: train then evaluate, returning `(losses, score)`. -/
def Worker.run (c : Collab) (w : Worker) : Worker × (List ℚ × ℚ) :=
  let w1 := (w.train c).evaluate c
  (w1, (w1.losses, w1.score))

/-- One worker's randomized initial hyperparameters (`PBTTrainer.__init__`,
lines 88–91): for each `(param, value)` of the base config in order,
`new_config['hyperparameters'][param] =
  np.random.uniform(1 / rand_scales[param], rand_scales[param]) * value`.
The unit draws come from the stream `u`, one per parameter, starting at
index `off`; a missing scale propagates the raw `KeyError` of the first
missing param, exactly as the Python lookup does. -/
def randHyper (rand_scales : List (String × ℚ)) (u : Nat → ℚ) :
    Nat → List (String × ℚ) → Except PyErr (List (String × ℚ))
  | _, [] => Except.ok []
  | off, (param, value) :: rest =>
    match dictGet rand_scales param with
    | Except.error e => Except.error e
    | Except.ok s =>
      match randHyper rand_scales u (off + 1) rest with
      | Except.error e => Except.error e
      | Except.ok tail => Except.ok ((param, uniform (1 / s) s (u off) * value) :: tail)

/-- The population-construction loop of `PBTTrainer.__init__` (lines 86–92):
`n` workers still to build, each from a deep copy of `config` whose
`hyperparameters` entries are randomized (consuming one unit draw per
parameter, workers in order). -/
def mkPopulation (c : Collab) (rand_scales : List (String × ℚ)) (config : Config)
    (u : Nat → ℚ) : Nat → Nat → Except PyErr (List Worker)
  | _, 0 => Except.ok []
  | off, n + 1 =>
    match randHyper rand_scales u off config.hyperparameters with
    | Except.error e => Except.error e
    | Except.ok hps =>
      match mkPopulation c rand_scales config u (off + config.hyperparameters.length) n with
      | Except.error e => Except.error e
      | Except.ok rest => Except.ok (Worker.init c { config with hyperparameters := hps } :: rest)

/-- The scheduler state (`PBTTrainer`).  `losses`/`scores` are the
per-generation histories; `population` the ordered worker list. -/
structure PBTTrainer where
  pop_size : Nat
  generations : Nat
  generation : Nat
  rank : String
  explore : ℚ × ℚ
  config : Config
  collab : Collab
  losses : List (List (List ℚ))
  scores : List (List ℚ)
  population : List Worker

/-- `PBTTrainer.__init__` (lines 70–92).  The Python defaults are
`explore = (1.2, 0.8)` and `rank = 'high'`; the embedding passes them
explicitly.  Construction fails (with the raw `KeyError`) exactly when some
base hyperparameter has no entry in `rand_scales` and `population_size ≥ 1`. -/
def PBTTrainer.init (population_size generations : Nat) (c : Collab)
    (rand_scales : List (String × ℚ)) (config : Config)
    (explore : ℚ × ℚ) (rank : String) (u : Nat → ℚ) : Except PyErr PBTTrainer :=
  match mkPopulation c rand_scales config u 0 population_size with
  | Except.error e => Except.error e
  | Except.ok pop => Except.ok
    { pop_size := population_size
      generations := generations
      generation := 0
      rank := rank
      explore := explore
      config := config
      collab := c
      losses := []
      scores := []
      population := pop }

/-- `PBTTrainer.run_generation` (lines 95–103): run every worker in population
order, append the index-aligned loss/score lists to the histories, and
increment `self.generation` (the Python method ends with
`self.generation += 1`). -/
def PBTTrainer.run_generation (t : PBTTrainer) : PBTTrainer :=
  let results := t.population.map (fun w => w.run t.collab)
  { t with
    population := results.map (fun r => r.1)
    losses := t.losses ++ [results.map (fun r => r.2.1)]
    scores := t.scores ++ [results.map (fun r => r.2.2)]
    generation := t.generation + 1 }

/-- `self.scores[-1]`, the most recent generation's scores.  (On an empty
history Python raises `IndexError`; the claims only use `ranker` after at
least one `run_generation`, and theorems that need it carry the corresponding
hypothesis.) -/
def PBTTrainer.lastScores (t : PBTTrainer) : List ℚ :=
  t.scores.getLastD []

/-- Stable insertion of index `i` into an already sorted index list: `i` goes
in front of the first element whose key is ≥ its own, so an element inserted
earlier in original order stays in front of later equal-key elements. -/
def insertKey (key : Nat → ℚ) (i : Nat) : List Nat → List Nat
  | [] => [i]
  | j :: rest => if key i ≤ key j then i :: j :: rest else j :: insertKey key i rest

/-- Stable insertion sort of an index list by `key`: the embedding of Python's
stable `sorted(range(len(scores)), key=lambda k: scores[k])` (Timsort and
stable insertion sort agree on every input, both being stable sorts for the
same total preorder). -/
def isortKey (key : Nat → ℚ) : List Nat → List Nat
  | [] => []
  | i :: rest => insertKey key i (isortKey key rest)

/-- `PBTTrainer.ranker` (lines 106–112): take the most recent scores, negate
them elementwise when `rank == 'high'` (`np.multiply(scores, -1)`), and
stably sort the indices `0..len-1` by the (possibly negated) score. -/
def PBTTrainer.ranker (t : PBTTrainer) : List Nat :=
  let scores := t.lastScores
  let scores := if t.rank == "high" then scores.map (fun s => s * (-1)) else scores
  isortKey (fun k => scores.getD k 0) (List.range scores.length)

/-- `int(np.ceil(0.2 * pop_size))`.  For every population size that fits in a
float's integer range the float expression rounds to exactly `⌈n/5⌉`
(`5 * (0.2 : Float) - 1` is below half an ulp), so the ceiling over `ℚ` is the
faithful value. -/
def numPairs (pop_size : Nat) : Nat := Nat.ceil ((1 / 5 : ℚ) * pop_size)

/-- Replace the element at index `i` (out-of-range: unchanged), modelling
`self.population[i] = ...`-style in-place mutation of one list slot. -/
def modifyAt {α : Type} (f : α → α) : Nat → List α → List α
  | _, [] => []
  | 0, x :: xs => f x :: xs
  | n + 1, x :: xs => x :: modifyAt f n xs

/-- Update only the `model` attribute of a worker (the shape of every mutation
`exploit_explore` performs on a population member: weights and
hyperparameters live inside the model, the stored `config` is untouched). -/
def setModel (g : Worker → Model) (w : Worker) : Worker := { w with model := g w }

/-- The body of the `for idx in range(num)` loop of `exploit_explore`
(lines 120–130) for one `idx`, given this pair's unit draw `coin`:
copy the best member's weights onto the worst member's model, deep-copy the
best member's `config['hyperparameters']`, pick the factor by one coin flip
(`explore[0]` if the draw is < 0.5, else `explore[1]`), multiply every entry
by that factor, and apply the result via `set_hyperparameters`.  The worst
member's stored `config` is not written — only its model. -/
def exploitOne (explore : ℚ × ℚ) (best worst : List Nat) (coin : ℚ) (idx : Nat)
    (pop : List Worker) : List Worker :=
  let b := best.getD idx 0
  let w := worst.getD idx 0
  let bestWorker := pop.getD b default
  let pop1 := modifyAt
    (setModel (fun wk => wk.model.set_weights bestWorker.model.get_weights)) w pop
  let new_hyperparameters := bestWorker.config.hyperparameters
  let factor := if coin < (1 / 2 : ℚ) then explore.1 else explore.2
  let new_hyperparameters := new_hyperparameters.map (fun p => (p.1, p.2 * factor))
  modifyAt (setModel (fun wk => wk.model.set_hyperparameters new_hyperparameters)) w pop1

/-- The `for idx in range(num)` loop: `k` iterations left, current index
`idx`, one unit draw `u idx` consumed per iteration. -/
def exploitGo (explore : ℚ × ℚ) (best worst : List Nat) (u : Nat → ℚ) :
    Nat → Nat → List Worker → List Worker
  | _, 0, pop => pop
  | idx, k + 1, pop =>
      exploitGo explore best worst u (idx + 1) k (exploitOne explore best worst (u idx) idx pop)

/-- `PBTTrainer.exploit_explore` (lines 114–130): rank, truncate to
`num = ceil(0.2 * pop_size)` best/worst pairs (`best = ranks[:num]`,
`worst = ranks[-num:]`), and run the copy/perturb loop.  `u` is the stream of
this call's unit draws, one per pair. -/
def PBTTrainer.exploit_explore (t : PBTTrainer) (u : Nat → ℚ) : PBTTrainer :=
  let ranks := t.ranker
  let num := numPairs t.pop_size
  let best := ranks.take num
  let worst := ranks.drop (ranks.length - num)
  { t with population := exploitGo t.explore best worst u 0 num t.population }

/-- `PBTTrainer.run` (lines 132–141): `generations` rounds of
`run_generation` then `exploit_explore`.  `u i` is the draw stream used by
generation `i`'s `exploit_explore`; the timing/printing code touches no
scheduler state (`speed` is a local). -/
def PBTTrainer.run (t : PBTTrainer) (u : Nat → Nat → ℚ) : PBTTrainer :=
  (List.range t.generations).foldl
    (fun s i => (s.run_generation).exploit_explore (u i)) t

end PBT

namespace PBT

/-! ### `modifyAt` -/

theorem modifyAt_length {α : Type} (f : α → α) :
    ∀ (i : Nat) (l : List α), (modifyAt f i l).length = l.length
  | 0, [] => rfl
  | _ + 1, [] => rfl
  | 0, _ :: _ => rfl
  | n + 1, _ :: xs => congrArg Nat.succ (modifyAt_length f n xs)

theorem getD_modifyAt_ne {α : Type} (f : α → α) (d : α) :
    ∀ (i j : Nat) (l : List α), j ≠ i → (modifyAt f i l).getD j d = l.getD j d := by
  intro i j l
  induction l generalizing i j with
  | nil => intro _; cases i <;> rfl
  | cons x xs ih =>
      intro hne
      cases i with
      | zero => cases j with
        | zero => exact absurd rfl hne
        | succ j => simp [modifyAt]
      | succ i => cases j with
        | zero => simp [modifyAt]
        | succ j =>
            simp only [modifyAt, List.getD_cons_succ]
            exact ih i j (fun h => hne (congrArg Nat.succ h))

theorem getD_modifyAt_self {α : Type} (f : α → α) (d : α) :
    ∀ (i : Nat) (l : List α), i < l.length → (modifyAt f i l).getD i d = f (l.getD i d) := by
  intro i l
  induction l generalizing i with
  | nil => intro h; exact absurd h (by simp)
  | cons x xs ih =>
      intro h
      cases i with
      | zero => simp [modifyAt]
      | succ i =>
          simp only [modifyAt, List.getD_cons_succ]
          exact ih i (Nat.lt_of_succ_lt_succ h)

theorem modifyAt_map {α β : Type} (f : α → α) (g : α → β) (hfg : ∀ x, g (f x) = g x) :
    ∀ (i : Nat) (l : List α), (modifyAt f i l).map g = l.map g
  | 0, [] => rfl
  | _ + 1, [] => rfl
  | 0, x :: xs => by simp [modifyAt, hfg]
  | n + 1, x :: xs => by simp [modifyAt, modifyAt_map f g hfg n xs]

/-! ### The stable insertion sort used by `ranker` -/

theorem insertKey_perm (key : Nat → ℚ) (i : Nat) :
    ∀ (l : List Nat), (insertKey key i l).Perm (i :: l)
  | [] => List.Perm.refl _
  | j :: rest => by
      unfold insertKey
      by_cases h : key i ≤ key j
      · simp [h]
      · simp only [if_neg h]
        exact ((insertKey_perm key i rest).cons j).trans (List.Perm.swap i j rest)

theorem isortKey_perm (key : Nat → ℚ) : ∀ (l : List Nat), (isortKey key l).Perm l
  | [] => List.Perm.refl _
  | i :: rest => (insertKey_perm key i _).trans ((isortKey_perm key rest).cons i)

/-- The strict order a stable ascending sort by `key` realizes on a list of
distinct indices: strictly smaller key first, ties by original index. -/
def lexLT (key : Nat → ℚ) (i j : Nat) : Prop :=
  key i < key j ∨ (key i = key j ∧ i < j)

theorem lexLT_key_le {key : Nat → ℚ} {i j : Nat} (h : lexLT key i j) : key i ≤ key j := by
  rcases h with h | ⟨h, _⟩
  · exact le_of_lt h
  · exact le_of_eq h

theorem pairwise_insertKey (key : Nat → ℚ) (i : Nat) :
    ∀ (l : List Nat), l.Pairwise (lexLT key) → (∀ j ∈ l, i < j) →
      (insertKey key i l).Pairwise (lexLT key) := by
  intro l
  induction l with
  | nil => intro _ _; simp [insertKey, lexLT]
  | cons j rest ih =>
      intro hp hidx
      rw [List.pairwise_cons] at hp
      unfold insertKey
      by_cases h : key i ≤ key j
      · rw [if_pos h, List.pairwise_cons]
        refine ⟨?_, List.pairwise_cons.mpr hp⟩
        intro x hx
        have hix : i < x := hidx x hx
        have hkey : key i ≤ key x := by
          rw [List.mem_cons] at hx
          rcases hx with rfl | hx
          · exact h
          · exact le_trans h (lexLT_key_le (hp.1 x hx))
        rcases lt_or_eq_of_le hkey with hk | hk
        · exact Or.inl hk
        · exact Or.inr ⟨hk, hix⟩
      · rw [if_neg h, List.pairwise_cons]
        constructor
        · intro x hx
          rw [(insertKey_perm key i rest).mem_iff, List.mem_cons] at hx
          rcases hx with rfl | hx
          · exact Or.inl (lt_of_not_ge h)
          · exact hp.1 x hx
        · exact ih hp.2 (fun x hx => hidx x (List.mem_cons_of_mem j hx))

theorem pairwise_isortKey (key : Nat → ℚ) :
    ∀ (l : List Nat), l.Pairwise (· < ·) → (isortKey key l).Pairwise (lexLT key) := by
  intro l
  induction l with
  | nil => intro _; simp [isortKey]
  | cons i rest ih =>
      intro hp
      rw [List.pairwise_cons] at hp
      exact pairwise_insertKey key i _ (ih hp.2)
        (fun j hj => hp.1 j ((isortKey_perm key rest).mem_iff.mp hj))

theorem pairwise_indexOf_lt {R : Nat → Nat → Prop} (l : List Nat) (hp : l.Pairwise R)
    (i j : Nat) (hi : i ∈ l) (hj : j ∈ l) (hij : R i j) (hji : ¬ R j i) :
    l.indexOf i < l.indexOf j := by
  have hne : i ≠ j := by rintro rfl; exact hji hij
  have ha : l.indexOf i < l.length := List.indexOf_lt_length.mpr hi
  have hb : l.indexOf j < l.length := List.indexOf_lt_length.mpr hj
  have hgi : l[l.indexOf i] = i := List.getElem_indexOf ha
  have hgj : l[l.indexOf j] = j := List.getElem_indexOf hb
  rcases lt_trichotomy (l.indexOf i) (l.indexOf j) with h | h | h
  · exact h
  · exact absurd ((List.indexOf_inj hi hj).mp h) hne
  · exact absurd (by simpa [hgi, hgj] using List.pairwise_iff_getElem.mp hp _ _ hb ha h) hji

/-! ### `numPairs` -/

theorem numPairs_le (n : Nat) : numPairs n ≤ n := by
  unfold numPairs
  rw [Nat.ceil_le]
  have h0 : (0 : ℚ) ≤ (n : ℚ) := Nat.cast_nonneg n
  linarith

end PBT

namespace PBT

/-! ### Field-preservation lemmas for the scheduler operations -/

theorem run_generation_generation (t : PBTTrainer) :
    t.run_generation.generation = t.generation + 1 := rfl

theorem run_generation_generations (t : PBTTrainer) :
    t.run_generation.generations = t.generations := rfl

theorem run_generation_scores_length (t : PBTTrainer) :
    t.run_generation.scores.length = t.scores.length + 1 := by
  simp [PBTTrainer.run_generation]

theorem run_generation_losses_length (t : PBTTrainer) :
    t.run_generation.losses.length = t.losses.length + 1 := by
  simp [PBTTrainer.run_generation]

theorem run_generation_configs (t : PBTTrainer) :
    t.run_generation.population.map (fun w => w.config)
      = t.population.map (fun w => w.config) := by
  simp only [PBTTrainer.run_generation, List.map_map]
  rfl

theorem exploit_explore_scores (t : PBTTrainer) (u : Nat → ℚ) :
    (t.exploit_explore u).scores = t.scores := rfl

theorem exploit_explore_losses (t : PBTTrainer) (u : Nat → ℚ) :
    (t.exploit_explore u).losses = t.losses := rfl

theorem exploit_explore_generation (t : PBTTrainer) (u : Nat → ℚ) :
    (t.exploit_explore u).generation = t.generation := rfl

theorem exploit_explore_generations (t : PBTTrainer) (u : Nat → ℚ) :
    (t.exploit_explore u).generations = t.generations := rfl

/-! ### Lemmas about the `exploit_explore` loop body -/

theorem exploitOne_length (e : ℚ × ℚ) (best worst : List Nat) (coin : ℚ) (idx : Nat)
    (pop : List Worker) : (exploitOne e best worst coin idx pop).length = pop.length := by
  simp only [exploitOne, modifyAt_length]

theorem getD_modifyAt_setModel (g : Worker → Model) (i j : Nat) (l : List Worker) :
    ((modifyAt (setModel g) i l).getD j default).config = (l.getD j default).config := by
  by_cases h : j = i
  · subst h
    by_cases hl : j < l.length
    · rw [getD_modifyAt_self (setModel g) default j l hl]; rfl
    · rw [List.getD_eq_default _ _ (by rw [modifyAt_length]; omega),
        List.getD_eq_default _ _ (by omega)]
  · rw [getD_modifyAt_ne (setModel g) default i j l h]

theorem modifyAt_setModel_map_config (g : Worker → Model) (i : Nat) (l : List Worker) :
    (modifyAt (setModel g) i l).map (fun w => w.config) = l.map (fun w => w.config) :=
  modifyAt_map (setModel g) (fun w => w.config) (fun _ => rfl) i l

theorem exploitOne_getD_config (e : ℚ × ℚ) (best worst : List Nat) (coin : ℚ) (idx : Nat)
    (pop : List Worker) (j : Nat) :
    ((exploitOne e best worst coin idx pop).getD j default).config
      = (pop.getD j default).config := by
  simp only [exploitOne]
  rw [getD_modifyAt_setModel, getD_modifyAt_setModel]

theorem exploitOne_map_config (e : ℚ × ℚ) (best worst : List Nat) (coin : ℚ) (idx : Nat)
    (pop : List Worker) :
    (exploitOne e best worst coin idx pop).map (fun w => w.config)
      = pop.map (fun w => w.config) := by
  simp only [exploitOne]
  rw [modifyAt_setModel_map_config, modifyAt_setModel_map_config]

theorem exploitOne_getD_ne (e : ℚ × ℚ) (best worst : List Nat) (coin : ℚ) (idx : Nat)
    (pop : List Worker) (j : Nat) (hne : j ≠ worst.getD idx 0) :
    (exploitOne e best worst coin idx pop).getD j default = pop.getD j default := by
  simp only [exploitOne]
  rw [getD_modifyAt_ne _ _ _ _ _ hne, getD_modifyAt_ne _ _ _ _ _ hne]

theorem exploitOne_sets_hyper (e : ℚ × ℚ) (best worst : List Nat) (coin : ℚ) (idx : Nat)
    (pop : List Worker) (hw : worst.getD idx 0 < pop.length) :
    ((exploitOne e best worst coin idx pop).getD (worst.getD idx 0) default).model.hyperparameters
      = ((pop.getD (best.getD idx 0) default).config.hyperparameters).map
          (fun p => (p.1, p.2 * (if coin < (1 / 2 : ℚ) then e.1 else e.2))) := by
  simp only [exploitOne]
  rw [getD_modifyAt_self _ default _ _ (by rw [modifyAt_length]; exact hw)]
  rfl

theorem exploitGo_frame (e : ℚ × ℚ) (best worst : List Nat) (u : Nat → ℚ) :
    ∀ (k idx : Nat) (pop : List Worker) (j : Nat),
      (∀ i, idx ≤ i → i < idx + k → worst.getD i 0 ≠ j) →
      (exploitGo e best worst u idx k pop).getD j default = pop.getD j default := by
  intro k
  induction k with
  | zero => intro idx pop j _; rfl
  | succ k ih =>
      intro idx pop j h
      show (exploitGo e best worst u (idx + 1) k
        (exploitOne e best worst (u idx) idx pop)).getD j default = _
      rw [ih (idx + 1) _ j (fun i h1 h2 => h i (by omega) (by omega)),
        exploitOne_getD_ne _ _ _ _ _ _ _ (h idx (le_refl idx) (by omega)).symm]

theorem exploitGo_length (e : ℚ × ℚ) (best worst : List Nat) (u : Nat → ℚ) :
    ∀ (k idx : Nat) (pop : List Worker),
      (exploitGo e best worst u idx k pop).length = pop.length := by
  intro k
  induction k with
  | zero => intro idx pop; rfl
  | succ k ih =>
      intro idx pop
      show (exploitGo e best worst u (idx + 1) k
        (exploitOne e best worst (u idx) idx pop)).length = _
      rw [ih, exploitOne_length]

theorem exploitGo_map_config (e : ℚ × ℚ) (best worst : List Nat) (u : Nat → ℚ) :
    ∀ (k idx : Nat) (pop : List Worker),
      (exploitGo e best worst u idx k pop).map (fun w => w.config)
        = pop.map (fun w => w.config) := by
  intro k
  induction k with
  | zero => intro idx pop; rfl
  | succ k ih =>
      intro idx pop
      show (exploitGo e best worst u (idx + 1) k
        (exploitOne e best worst (u idx) idx pop)).map (fun w => w.config) = _
      rw [ih, exploitOne_map_config]

theorem exploitGo_sets (e : ℚ × ℚ) (best worst : List Nat) (u : Nat → ℚ) :
    ∀ (k idx : Nat) (pop : List Worker),
      (∀ i, idx ≤ i → i < idx + k → worst.getD i 0 < pop.length) →
      (∀ i i', idx ≤ i → i < i' → i' < idx + k → worst.getD i 0 ≠ worst.getD i' 0) →
      ∀ i, idx ≤ i → i < idx + k →
        ((exploitGo e best worst u idx k pop).getD (worst.getD i 0) default).model.hyperparameters
          = ((pop.getD (best.getD i 0) default).config.hyperparameters).map
              (fun p => (p.1, p.2 * (if u i < (1 / 2 : ℚ) then e.1 else e.2))) := by
  intro k
  induction k with
  | zero => intro idx pop _ _ i h1 h2; omega
  | succ k ih =>
      intro idx pop hb hd i h1 h2
      show ((exploitGo e best worst u (idx + 1) k
        (exploitOne e best worst (u idx) idx pop)).getD _ default).model.hyperparameters = _
      rcases eq_or_lt_of_le h1 with rfl | hlt
      · rw [exploitGo_frame e best worst u k (idx + 1) _ _
          (fun i' hi1 hi2 => (hd idx i' (le_refl idx) (by omega) (by omega)).symm)]
        exact exploitOne_sets_hyper e best worst (u idx) idx pop (hb idx (le_refl idx) (by omega))
      · rw [ih (idx + 1) _
          (fun i' hi1 hi2 => by rw [exploitOne_length]; exact hb i' (by omega) (by omega))
          (fun i' i'' hi1 hi2 hi3 => hd i' i'' (by omega) hi2 (by omega))
          i hlt (by omega)]
        rw [exploitOne_getD_config]

end PBT

namespace PBT

/-! ### Characterizing `ranker` -/

/-- The sort key `ranker` uses for index `k`: the most recent score of member
`k`, negated (`* -1`) when ranking for `'high'`. -/
def rankKey (t : PBTTrainer) (k : Nat) : ℚ :=
  (if t.rank == "high" then t.lastScores.map (fun s => s * (-1)) else t.lastScores).getD k 0

theorem exploit_explore_map_config (t : PBTTrainer) (u : Nat → ℚ) :
    (t.exploit_explore u).population.map (fun w => w.config)
      = t.population.map (fun w => w.config) := by
  simp only [PBTTrainer.exploit_explore]
  exact exploitGo_map_config _ _ _ _ _ _ _

theorem ranker_eq (t : PBTTrainer) :
    t.ranker = isortKey (rankKey t) (List.range t.lastScores.length) := by
  have hk : rankKey t = fun k =>
      (if t.rank == "high" then t.lastScores.map (fun s => s * (-1))
        else t.lastScores).getD k 0 := by
    funext k; rfl
  simp only [PBTTrainer.ranker, hk]
  by_cases h : (t.rank == "high") = true
  · simp only [if_pos h, List.length_map]
  · simp only [if_neg h]

theorem ranker_perm (t : PBTTrainer) :
    t.ranker.Perm (List.range t.lastScores.length) := by
  rw [ranker_eq]; exact isortKey_perm _ _

theorem ranker_pairwise (t : PBTTrainer) : t.ranker.Pairwise (lexLT (rankKey t)) := by
  rw [ranker_eq]; exact pairwise_isortKey _ _ (List.pairwise_lt_range _)

theorem rankKey_high (t : PBTTrainer) (h : t.rank = "high") (k : Nat)
    (hk : k < t.lastScores.length) :
    rankKey t k = (t.lastScores.getD k 0) * (-1) := by
  simp only [rankKey, h]
  rw [if_pos (by simp), List.getD_eq_getElem _ _ (by rw [List.length_map]; exact hk),
    List.getElem_map, List.getD_eq_getElem _ _ hk]

/-! ### The outer `run` loop -/

theorem runLoop_stats (u : Nat → Nat → ℚ) :
    ∀ (L : List Nat) (t : PBTTrainer),
      ((L.foldl (fun s i => (s.run_generation).exploit_explore (u i)) t).scores.length
          = t.scores.length + L.length)
      ∧ ((L.foldl (fun s i => (s.run_generation).exploit_explore (u i)) t).losses.length
          = t.losses.length + L.length)
      ∧ ((L.foldl (fun s i => (s.run_generation).exploit_explore (u i)) t).generation
          = t.generation + L.length)
      ∧ ((L.foldl (fun s i => (s.run_generation).exploit_explore (u i)) t).population.map
            (fun w => w.config) = t.population.map (fun w => w.config)) := by
  intro L
  induction L with
  | nil => intro t; exact ⟨rfl, rfl, rfl, rfl⟩
  | cons x L ih =>
      intro t
      have h := ih ((t.run_generation).exploit_explore (u x))
      simp only [List.foldl_cons, List.length_cons]
      refine ⟨?_, ?_, ?_, ?_⟩
      · rw [h.1, exploit_explore_scores, run_generation_scores_length]; omega
      · rw [h.2.1, exploit_explore_losses, run_generation_losses_length]; omega
      · rw [h.2.2.1, exploit_explore_generation, run_generation_generation]; omega
      · rw [h.2.2.2, exploit_explore_map_config, run_generation_configs]

theorem run_stats (t : PBTTrainer) (u : Nat → Nat → ℚ) :
    (t.run u).scores.length = t.scores.length + t.generations
    ∧ (t.run u).losses.length = t.losses.length + t.generations
    ∧ (t.run u).generation = t.generation + t.generations
    ∧ (t.run u).population.map (fun w => w.config)
        = t.population.map (fun w => w.config) := by
  have h := runLoop_stats u (List.range t.generations) t
  simp only [List.length_range] at h
  exact h

/-! ### The operations a caller can perform on a constructed scheduler -/

/-- The scheduler operations available after population creation.  `ranker`
is read-only (it returns a value and writes no state), so the state
transitions are these three. -/
inductive SchedOp where
  | runGen : SchedOp
  | exploitExplore (u : Nat → ℚ) : SchedOp
  | runAll (u : Nat → Nat → ℚ) : SchedOp

def applyOp (t : PBTTrainer) : SchedOp → PBTTrainer
  | SchedOp.runGen => t.run_generation
  | SchedOp.exploitExplore u => t.exploit_explore u
  | SchedOp.runAll u => t.run u

def applyOps (t : PBTTrainer) : List SchedOp → PBTTrainer
  | [] => t
  | op :: ops => applyOps (applyOp t op) ops

theorem applyOp_map_config (t : PBTTrainer) (op : SchedOp) :
    (applyOp t op).population.map (fun w => w.config)
      = t.population.map (fun w => w.config) := by
  cases op with
  | runGen => exact run_generation_configs t
  | exploitExplore u => exact exploit_explore_map_config t u
  | runAll u => exact (run_stats t u).2.2.2

theorem applyOps_map_config (ops : List SchedOp) :
    ∀ (t : PBTTrainer),
      (applyOps t ops).population.map (fun w => w.config)
        = t.population.map (fun w => w.config) := by
  induction ops with
  | nil => intro t; rfl
  | cons op ops ih => intro t; rw [applyOps, ih, applyOp_map_config]

end PBT

namespace PBT

/-! ### Characterizing construction -/

theorem randHyper_ok_getD (scales : List (String × ℚ)) (u : Nat → ℚ) :
    ∀ (hps out : List (String × ℚ)) (off : Nat),
      randHyper scales u off hps = Except.ok out →
      ∀ i, i < hps.length →
        ∃ s, dictGet scales (hps.getD i default).1 = Except.ok s
          ∧ out.getD i default
            = ((hps.getD i default).1,
               uniform (1 / s) s (u (off + i)) * (hps.getD i default).2) := by
  intro hps
  induction hps with
  | nil => intro out off _ i hi; simp at hi
  | cons p rest ih =>
      intro out off hok i hi
      obtain ⟨param, value⟩ := p
      rw [randHyper] at hok
      cases hs : dictGet scales param with
      | error err => rw [hs] at hok; simp at hok
      | ok s =>
          rw [hs] at hok
          cases ht : randHyper scales u (off + 1) rest with
          | error err => rw [ht] at hok; simp at hok
          | ok tail =>
              rw [ht] at hok
              simp only [Except.ok.injEq] at hok
              subst hok
              cases i with
              | zero => exact ⟨s, hs, by simp⟩
              | succ i =>
                  obtain ⟨s2, hs2, hval⟩ := ih tail (off + 1) ht i (Nat.lt_of_succ_lt_succ hi)
                  refine ⟨s2, by simpa using hs2, ?_⟩
                  have harith : off + 1 + i = off + (i + 1) := by omega
                  simpa [harith] using hval

theorem randHyper_ok_length (scales : List (String × ℚ)) (u : Nat → ℚ) :
    ∀ (hps out : List (String × ℚ)) (off : Nat),
      randHyper scales u off hps = Except.ok out → out.length = hps.length := by
  intro hps
  induction hps with
  | nil => intro out off hok; rw [randHyper] at hok; simp only [Except.ok.injEq] at hok; simp [← hok]
  | cons p rest ih =>
      intro out off hok
      obtain ⟨param, value⟩ := p
      rw [randHyper] at hok
      cases hs : dictGet scales param with
      | error err => rw [hs] at hok; simp at hok
      | ok s =>
          rw [hs] at hok
          cases ht : randHyper scales u (off + 1) rest with
          | error err => rw [ht] at hok; simp at hok
          | ok tail =>
              rw [ht] at hok
              simp only [Except.ok.injEq] at hok
              subst hok
              simp [ih tail (off + 1) ht]

theorem mkPopulation_ok_getD (c : Collab) (scales : List (String × ℚ)) (config : Config)
    (u : Nat → ℚ) :
    ∀ (n off : Nat) (pop : List Worker),
      mkPopulation c scales config u off n = Except.ok pop →
      ∀ i, i < n →
        ∃ hps, randHyper scales u (off + i * config.hyperparameters.length)
              config.hyperparameters = Except.ok hps
          ∧ (pop.getD i default).config = { config with hyperparameters := hps }
          ∧ (pop.getD i default).model = c.modelF hps := by
  intro n
  induction n with
  | zero => intro off pop _ i hi; omega
  | succ n ih =>
      intro off pop hok i hi
      rw [mkPopulation] at hok
      cases hr : randHyper scales u off config.hyperparameters with
      | error err => rw [hr] at hok; simp at hok
      | ok hps =>
          rw [hr] at hok
          cases hm : mkPopulation c scales config u
              (off + config.hyperparameters.length) n with
          | error err => rw [hm] at hok; simp at hok
          | ok rest =>
              rw [hm] at hok
              simp only [Except.ok.injEq] at hok
              subst hok
              cases i with
              | zero =>
                  refine ⟨hps, ?_, rfl, rfl⟩
                  simpa using hr
              | succ i =>
                  obtain ⟨hps2, hr2, hc2, hm2⟩ :=
                    ih (off + config.hyperparameters.length) rest hm i
                      (Nat.lt_of_succ_lt_succ hi)
                  refine ⟨hps2, ?_, by simpa using hc2, by simpa using hm2⟩
                  have harith : off + config.hyperparameters.length
                      + i * config.hyperparameters.length
                      = off + (i + 1) * config.hyperparameters.length := by ring
                  rw [← harith]
                  exact hr2

theorem init_ok_elim (ps g : Nat) (c : Collab) (scales : List (String × ℚ))
    (config : Config) (e : ℚ × ℚ) (r : String) (u : Nat → ℚ) (t : PBTTrainer)
    (h : PBTTrainer.init ps g c scales config e r u = Except.ok t) :
    mkPopulation c scales config u 0 ps = Except.ok t.population
    ∧ t.pop_size = ps ∧ t.generations = g ∧ t.generation = 0 ∧ t.rank = r
    ∧ t.explore = e ∧ t.config = config ∧ t.scores = [] ∧ t.losses = [] := by
  rw [PBTTrainer.init] at h
  cases hm : mkPopulation c scales config u 0 ps with
  | error err => rw [hm] at h; simp at h
  | ok pop =>
      rw [hm] at h
      simp only [Except.ok.injEq] at h
      subst h
      exact ⟨rfl, rfl, rfl, rfl, rfl, rfl, rfl, rfl, rfl⟩

/-- The first parameter of `hps` (in insertion order) that has no entry in
`scales`: the key whose lookup `rand_scales[param]` is the first to raise. -/
def firstMissing (scales hps : List (String × ℚ)) : Option String :=
  (hps.find? (fun p => (scales.find? (fun q => q.1 == p.1)).isNone)).map (fun p => p.1)

theorem randHyper_firstMissing (scales : List (String × ℚ)) (u : Nat → ℚ) (k : String) :
    ∀ (hps : List (String × ℚ)) (off : Nat),
      firstMissing scales hps = some k →
      randHyper scales u off hps = Except.error (PyErr.keyError k) := by
  intro hps
  induction hps with
  | nil => intro off h; simp [firstMissing] at h
  | cons p rest ih =>
      intro off h
      obtain ⟨param, value⟩ := p
      rw [firstMissing, List.find?] at h
      cases hfind : (scales.find? (fun q => q.1 == param)).isNone with
      | true =>
          rw [hfind] at h
          simp at h
          rw [randHyper]
          have hd : dictGet scales param = Except.error (PyErr.keyError param) := by
            rw [dictGet, Option.isNone_iff_eq_none.mp hfind]
          rw [hd, h]
      | false =>
          rw [hfind] at h
          have hsome : ∃ q, scales.find? (fun q => q.1 == param) = some q := by
            cases hq : scales.find? (fun q => q.1 == param) with
            | none => rw [hq] at hfind; simp at hfind
            | some q => exact ⟨q, rfl⟩
          obtain ⟨q, hq⟩ := hsome
          rw [randHyper]
          have : dictGet scales param = Except.ok q.2 := by rw [dictGet, hq]
          rw [this, ih (off + 1) (by rw [firstMissing]; exact h)]

end PBT

namespace PBT

/-! ### Concrete instances used by the claim theorems -/

/-- The all-zeros unit-draw stream (every `np.random.uniform()` returns 0). -/
def uZero : Nat → ℚ := fun _ => 0

/-- All-zeros per-generation draw streams. -/
def uuZero : Nat → Nat → ℚ := fun _ _ => 0

/-- A concrete collaborator set: the model factory stores the
hyperparameters with zero weights, training returns the weights as the sole
loss, evaluation returns the weights as the score. -/
def cColl : Collab :=
  ⟨fun hp => ⟨0, hp⟩, fun m _ => (m, [m.weights]), fun m _ => m.weights⟩

/-- A worker with the given weights and hyperparameters (stored both in the
model and in its config, as construction produces). -/
def mkW (wt : ℚ) (hp : List (String × ℚ)) : Worker :=
  ⟨⟨wt, hp⟩, ⟨0, hp, [("bs", 32)], [("ep", 10)]⟩, [], 0⟩

/-- A 5-member scheduler state right after one generation with scores
`[1,5,3,2,4]` — the spec's §8 scenario.  Worker `i` has weights `10*(i+1)`
and hyperparameter `lr = i+1`. -/
def tA : PBTTrainer :=
  ⟨5, 3, 1, "high", (12/10, 8/10), ⟨0, [("lr", 1)], [("bs", 32)], [("ep", 10)]⟩, cColl,
    [[[1], [5], [3], [2], [4]]], [[1, 5, 3, 2, 4]],
    [mkW 10 [("lr", 1)], mkW 20 [("lr", 2)], mkW 30 [("lr", 3)],
     mkW 40 [("lr", 4)], mkW 50 [("lr", 5)]]⟩

/-- A 3-member state whose most recent scores `[3,1,3]` contain a tie. -/
def tB : PBTTrainer :=
  ⟨3, 2, 1, "high", (12/10, 8/10), ⟨0, [("lr", 1)], [], []⟩, cColl,
    [[[1], [2], [3]]], [[3, 1, 3]],
    [mkW 1 [("lr", 1)], mkW 2 [("lr", 2)], mkW 3 [("lr", 3)]]⟩

theorem numPairs_five : numPairs 5 = 1 := by norm_num [numPairs]

/-! ### C1 -/

/-- C1: the claim (and spec §4.2 step 5) says that after `exploit_explore`
the worst member's stored Configuration holds the perturbed copy of the best
member's hyperparameters.  The code does not do this: it passes the perturbed
values to the worst member's trainable via `set_hyperparameters` (line 130)
but never writes `config['hyperparameters']`.  First conjunct: no
`exploit_explore` call ever changes any member's stored config.  The rest
evaluates the failing input `tA` (scores `[1,5,3,2,4]`): pair best = 1 /
worst = 0, best's `lr = 2` is perturbed by factor `1.2` to `12/5` and
installed on worker 0's model, while worker 0's stored config still holds its
pre-call `lr = 1` — the perturbed value and the stored value disagree. -/
theorem exploit_explore_config_not_updated :
    (∀ (t : PBTTrainer) (u : Nat → ℚ),
      (t.exploit_explore u).population.map (fun w => w.config)
        = t.population.map (fun w => w.config))
    ∧ ((tA.exploit_explore uZero).population.getD 0 default).model.hyperparameters
        = [("lr", (12 / 5 : ℚ))]
    ∧ ((tA.exploit_explore uZero).population.getD 0 default).config.hyperparameters
        = [("lr", (1 : ℚ))]
    ∧ (tA.population.getD 0 default).config.hyperparameters = [("lr", (1 : ℚ))]
    ∧ [("lr", (12 / 5 : ℚ))] ≠ [("lr", (1 : ℚ))] := by
  refine ⟨fun t u => exploit_explore_map_config t u, ?_, ?_, by norm_num [tA, mkW], by norm_num⟩
  · norm_num [PBTTrainer.exploit_explore, PBTTrainer.ranker, PBTTrainer.lastScores, tA,
      isortKey, insertKey, List.range_succ, numPairs_five, exploitGo, exploitOne, modifyAt,
      setModel, Model.set_weights, Model.get_weights, Model.set_hyperparameters, mkW, uZero,
      cColl]
  · norm_num [PBTTrainer.exploit_explore, PBTTrainer.ranker, PBTTrainer.lastScores, tA,
      isortKey, insertKey, List.range_succ, numPairs_five, exploitGo, exploitOne, modifyAt,
      setModel, Model.set_weights, Model.get_weights, Model.set_hyperparameters, mkW, uZero,
      cColl]

/-! ### C2 -/

/-- Whether a construction outcome is the descriptive configuration error the
spec asks for (as opposed to a raw `KeyError` or a success). -/
def isConfigError {α : Type} : Except PyErr α → Bool
  | Except.error (PyErr.configError _) => true
  | _ => false

/-- A base configuration with two hyperparameters, the second of which has no
entry in the scales mapping `[("lr", 2)]`. -/
def cfgB : Config := ⟨0, [("lr", 2), ("momentum", 9)], [], []⟩

/-- C2 counterexample: with `momentum` present in the base config but absent
from the scales mapping, construction does fail at population-construction
time, but with the raw lookup failure `KeyError "momentum"`, not with the
descriptive configuration error the claim states. -/
theorem init_missing_scale_not_configError :
    PBTTrainer.init 2 3 cColl [("lr", 2)] cfgB (12 / 10, 8 / 10) "high" uZero
      = Except.error (PyErr.keyError "momentum")
    ∧ isConfigError
        (PBTTrainer.init 2 3 cColl [("lr", 2)] cfgB (12 / 10, 8 / 10) "high" uZero)
      = false :=
  ⟨rfl, rfl⟩

/-- C2 (amended): if some base hyperparameter is missing from the scales
mapping (and the population is non-empty), construction fails fast — at
population-construction time, on the first worker — by propagating the raw
lookup failure `KeyError k` for the first missing key `k`; there is no silent
default, but also no descriptive configuration error. -/
theorem init_missing_scale_fails_with_keyError (ps g : Nat) (c : Collab)
    (scales : List (String × ℚ)) (config : Config) (e : ℚ × ℚ) (r : String)
    (u : Nat → ℚ) (k : String)
    (hmiss : firstMissing scales config.hyperparameters = some k) (hps : 1 ≤ ps) :
    PBTTrainer.init ps g c scales config e r u = Except.error (PyErr.keyError k) := by
  obtain ⟨n, rfl⟩ : ∃ n, ps = n + 1 := ⟨ps - 1, by omega⟩
  rw [PBTTrainer.init, mkPopulation, randHyper_firstMissing scales u k _ 0 hmiss]

/-- Witness for C2's amended theorem at the concrete input of the
counterexample. -/
theorem init_missing_scale_fails_with_keyError_witness :
    firstMissing [("lr", 2)] cfgB.hyperparameters = some "momentum"
    ∧ 1 ≤ 2
    ∧ PBTTrainer.init 2 3 cColl [("lr", 2)] cfgB (12 / 10, 8 / 10) "high" uZero
        = Except.error (PyErr.keyError "momentum") :=
  ⟨by decide, by decide,
    init_missing_scale_fails_with_keyError 2 3 cColl [("lr", 2)] cfgB (12 / 10, 8 / 10)
      "high" uZero "momentum" (by decide) (by decide)⟩

/-! ### C3 -/

/-- C3 counterexample: the claim says `run_generation` leaves the
`generation` counter unchanged; on state `tA` (counter 1) a single
`run_generation` call moves the counter to 2 (the Python method ends with
`self.generation += 1`, line 103). -/
theorem run_generation_mutates_generation :
    tA.run_generation.generation = 2 ∧ tA.generation = 1 ∧ (2 : Nat) ≠ 1 :=
  ⟨rfl, rfl, by decide⟩

/-- C3 (amended): the `generation` counter is incremented by exactly 1 per
completed generation, but inside `run_generation` (its final statement),
not at the end of the outer `run` loop: `exploit_explore` leaves the counter
unchanged and `run` adds nothing beyond the `run_generation` increments, so
`run` raises the counter by exactly the number of generations. -/
theorem generation_counter_locations (t : PBTTrainer) (u : Nat → ℚ)
    (v : Nat → Nat → ℚ) :
    t.run_generation.generation = t.generation + 1
    ∧ (t.exploit_explore u).generation = t.generation
    ∧ (t.run v).generation = t.generation + t.generations :=
  ⟨rfl, rfl, (run_stats t v).2.2.1⟩

end PBT

namespace PBT

/-! ### C4 -/

/-- C4: for a most recent score list of length `population_size` and
`rank = 'high'` (the code's maximize direction), `ranker()` returns a
permutation of `0..population_size-1`; the first returned index holds a
maximal score; and members with equal scores keep their original
population-index order (the sort is stable and keyed purely on the score). -/
theorem ranker_maximize_properties (t : PBTTrainer)
    (hrank : t.rank = "high")
    (hlen : t.lastScores.length = t.pop_size)
    (hpos : 0 < t.pop_size) :
    t.ranker.Perm (List.range t.pop_size)
    ∧ (∀ j, j < t.pop_size →
        t.lastScores.getD j 0 ≤ t.lastScores.getD (t.ranker.headD 0) 0)
    ∧ (∀ i j, i < j → j < t.pop_size →
        t.lastScores.getD i 0 = t.lastScores.getD j 0 →
        t.ranker.indexOf i < t.ranker.indexOf j) := by
  have hperm : t.ranker.Perm (List.range t.pop_size) := by
    have := ranker_perm t
    rwa [hlen] at this
  have hmemof : ∀ j, j < t.pop_size → j ∈ t.ranker := fun j hj =>
    hperm.mem_iff.mpr (List.mem_range.mpr hj)
  have hmemto : ∀ x, x ∈ t.ranker → x < t.pop_size := fun x hx =>
    List.mem_range.mp (hperm.mem_iff.mp hx)
  have hpw := ranker_pairwise t
  refine ⟨hperm, ?_, ?_⟩
  · intro j hj
    cases hout : t.ranker with
    | nil =>
        exfalso
        have hl := hperm.length_eq
        rw [hout, List.length_range] at hl
        simp at hl
        omega
    | cons hd rest =>
        simp only [List.headD_cons]
        have hjmem : j ∈ t.ranker := hmemof j hj
        rw [hout, List.mem_cons] at hjmem
        rcases hjmem with rfl | hjmem
        · exact le_refl _
        · have hlex : lexLT (rankKey t) hd j := by
            rw [hout] at hpw
            exact (List.pairwise_cons.mp hpw).1 j hjmem
          have hk := lexLT_key_le hlex
          have hhdlt : hd < t.pop_size :=
            hmemto hd (by rw [hout]; exact List.mem_cons_self hd rest)
          rw [rankKey_high t hrank hd (by rw [hlen]; exact hhdlt),
            rankKey_high t hrank j (by rw [hlen]; exact hj)] at hk
          linarith
  · intro i j hij hj hs
    have hi : i < t.pop_size := lt_trans hij hj
    have hki : rankKey t i = rankKey t j := by
      rw [rankKey_high t hrank i (by rw [hlen]; exact hi),
        rankKey_high t hrank j (by rw [hlen]; exact hj), hs]
    refine pairwise_indexOf_lt t.ranker hpw i j (hmemof i hi) (hmemof j hj)
      (Or.inr ⟨hki, hij⟩) ?_
    intro hlex
    rcases hlex with hlt | ⟨_, hji⟩
    · rw [hki] at hlt; exact absurd hlt (lt_irrefl _)
    · omega

/-- Witness for C4 on the concrete tied-score state `tB`
(scores `[3,1,3]`, `rank = 'high'`, population size 3). -/
theorem ranker_maximize_properties_witness :
    tB.rank = "high" ∧ tB.lastScores.length = tB.pop_size ∧ 0 < tB.pop_size
    ∧ (tB.ranker.Perm (List.range tB.pop_size)
      ∧ (∀ j, j < tB.pop_size →
          tB.lastScores.getD j 0 ≤ tB.lastScores.getD (tB.ranker.headD 0) 0)
      ∧ (∀ i j, i < j → j < tB.pop_size →
          tB.lastScores.getD i 0 = tB.lastScores.getD j 0 →
          tB.ranker.indexOf i < tB.ranker.indexOf j)) :=
  ⟨rfl, rfl, by decide, ranker_maximize_properties tB rfl rfl (by decide)⟩

/-! ### C5 -/

/-- C5 counterexample: in the spec's §8 scenario (population 5, maximize,
most recent scores `[1,5,3,2,4]`), `ranker()` returns `[1,4,2,3,0]` — the
scores in best-first order are `5,4,3,2,1` at indices `1,4,2,3,0` — not the
`[1,2,4,3,0]` the claim states. -/
theorem ranker_scenario_not_spec_list :
    tA.ranker = [1, 4, 2, 3, 0] ∧ tA.ranker ≠ [1, 2, 4, 3, 0] := by
  have h : tA.ranker = [1, 4, 2, 3, 0] := by
    norm_num [PBTTrainer.ranker, PBTTrainer.lastScores, tA, isortKey, insertKey,
      List.range_succ]
  exact ⟨h, by rw [h]; decide⟩

/-- C5 (amended): in that scenario `ranker()` returns `[1,4,2,3,0]`,
`num = ceil(0.2*5) = 1`, and `exploit_explore` copies state/hyperparameters
from best index 1 onto worst index 0: worker 0's model receives worker 1's
weights and worker 1's hyperparameters multiplied by the drawn factor
(`1.2` for a draw < 0.5), while workers 1–4 are untouched. -/
theorem ranker_scenario_spec :
    tA.ranker = [1, 4, 2, 3, 0]
    ∧ numPairs 5 = 1
    ∧ ((tA.exploit_explore uZero).population.getD 0 default).model.weights
        = (tA.population.getD 1 default).model.get_weights
    ∧ ((tA.exploit_explore uZero).population.getD 0 default).model.hyperparameters
        = (tA.population.getD 1 default).config.hyperparameters.map
            (fun p => (p.1, p.2 * (12 / 10)))
    ∧ (tA.exploit_explore uZero).population.getD 1 default = tA.population.getD 1 default
    ∧ (tA.exploit_explore uZero).population.getD 2 default = tA.population.getD 2 default
    ∧ (tA.exploit_explore uZero).population.getD 3 default = tA.population.getD 3 default
    ∧ (tA.exploit_explore uZero).population.getD 4 default = tA.population.getD 4 default := by
  norm_num [PBTTrainer.exploit_explore, PBTTrainer.ranker, PBTTrainer.lastScores, tA,
    isortKey, insertKey, List.range_succ, numPairs_five, exploitGo, exploitOne, modifyAt,
    setModel, Model.set_weights, Model.get_weights, Model.set_hyperparameters, mkW, uZero,
    cColl]

end PBT

namespace PBT

/-! ### C6 -/

/-- C6: every `exploit_explore` call processes exactly
`ceil(0.2 * population_size)` best/worst pairs.  With
`worst = ranks[-num:]` and `best = ranks[:num]`: (1) `worst` has exactly
`num = numPairs pop_size` entries; (2) for each pair `idx`, one coin flip
`u idx` picks the single factor (`explore.1` if the draw is < 0.5, else
`explore.2`) and the worst member's model ends with every hyperparameter of
the best member's config multiplied by that same factor; (3) members outside
the worst set are untouched — so exactly `num` members are written. -/
theorem exploit_explore_pairs_spec (t : PBTTrainer) (u : Nat → ℚ)
    (hpop : t.population.length = t.pop_size)
    (hlen : t.lastScores.length = t.pop_size) :
    ((t.ranker.drop (t.ranker.length - numPairs t.pop_size)).length = numPairs t.pop_size)
    ∧ (∀ idx, idx < numPairs t.pop_size →
        ((t.exploit_explore u).population.getD
            ((t.ranker.drop (t.ranker.length - numPairs t.pop_size)).getD idx 0)
            default).model.hyperparameters
          = ((t.population.getD ((t.ranker.take (numPairs t.pop_size)).getD idx 0)
                default).config.hyperparameters).map
              (fun p => (p.1, p.2 * (if u idx < (1 / 2 : ℚ) then t.explore.1
                else t.explore.2))))
    ∧ (∀ j, (∀ idx, idx < numPairs t.pop_size →
          (t.ranker.drop (t.ranker.length - numPairs t.pop_size)).getD idx 0 ≠ j) →
        (t.exploit_explore u).population.getD j default
          = t.population.getD j default) := by
  have hrl : t.ranker.length = t.pop_size := by
    rw [(ranker_perm t).length_eq, List.length_range, hlen]
  have hnum : numPairs t.pop_size ≤ t.pop_size := numPairs_le _
  have hwlen : (t.ranker.drop (t.ranker.length - numPairs t.pop_size)).length
      = numPairs t.pop_size := by rw [List.length_drop]; omega
  have hnd : t.ranker.Nodup := (ranker_perm t).symm.nodup (List.nodup_range _)
  have hwnd : (t.ranker.drop (t.ranker.length - numPairs t.pop_size)).Nodup :=
    List.Nodup.sublist (List.drop_sublist _ _) hnd
  have hmemto : ∀ x, x ∈ t.ranker → x < t.pop_size := fun x hx => by
    have := List.mem_range.mp ((ranker_perm t).mem_iff.mp hx)
    omega
  have hwget : ∀ idx, idx < numPairs t.pop_size →
      (t.ranker.drop (t.ranker.length - numPairs t.pop_size)).getD idx 0 ∈ t.ranker := by
    intro idx hidx
    have h1 : idx < (t.ranker.drop (t.ranker.length - numPairs t.pop_size)).length := by
      rw [hwlen]; exact hidx
    rw [List.getD_eq_getElem _ _ h1]
    exact (List.drop_sublist _ _).subset (List.getElem_mem h1)
  have hdist : ∀ i i', i < i' → i' < numPairs t.pop_size →
      (t.ranker.drop (t.ranker.length - numPairs t.pop_size)).getD i 0
        ≠ (t.ranker.drop (t.ranker.length - numPairs t.pop_size)).getD i' 0 := by
    intro i i' hii hi'
    have h1 : i < (t.ranker.drop (t.ranker.length - numPairs t.pop_size)).length := by
      rw [hwlen]; omega
    have h2 : i' < (t.ranker.drop (t.ranker.length - numPairs t.pop_size)).length := by
      rw [hwlen]; exact hi'
    rw [List.getD_eq_getElem _ _ h1, List.getD_eq_getElem _ _ h2]
    intro heq
    have := (List.Nodup.getElem_inj_iff hwnd).mp heq
    omega
  refine ⟨hwlen, ?_, ?_⟩
  · intro idx hidx
    simp only [PBTTrainer.exploit_explore]
    exact exploitGo_sets t.explore (t.ranker.take (numPairs t.pop_size))
      (t.ranker.drop (t.ranker.length - numPairs t.pop_size)) u (numPairs t.pop_size) 0
      t.population
      (fun i h0 hi => by rw [hpop]; exact hmemto _ (hwget i (by omega)))
      (fun i i' h0 hii hi' => hdist i i' hii (by omega))
      idx (Nat.zero_le idx) (by omega)
  · intro j hj
    simp only [PBTTrainer.exploit_explore]
    exact exploitGo_frame t.explore (t.ranker.take (numPairs t.pop_size))
      (t.ranker.drop (t.ranker.length - numPairs t.pop_size)) u (numPairs t.pop_size) 0
      t.population j (fun i h0 hi => hj i (by omega))

/-- Witness for C6 on the concrete state `tB` (population 3, so
`num = ceil(0.6) = 1`). -/
theorem exploit_explore_pairs_spec_witness :
    tB.population.length = tB.pop_size
    ∧ tB.lastScores.length = tB.pop_size
    ∧ (((tB.ranker.drop (tB.ranker.length - numPairs tB.pop_size)).length
          = numPairs tB.pop_size)
      ∧ (∀ idx, idx < numPairs tB.pop_size →
          ((tB.exploit_explore uZero).population.getD
              ((tB.ranker.drop (tB.ranker.length - numPairs tB.pop_size)).getD idx 0)
              default).model.hyperparameters
            = ((tB.population.getD ((tB.ranker.take (numPairs tB.pop_size)).getD idx 0)
                  default).config.hyperparameters).map
                (fun p => (p.1, p.2 * (if uZero idx < (1 / 2 : ℚ) then tB.explore.1
                  else tB.explore.2))))
      ∧ (∀ j, (∀ idx, idx < numPairs tB.pop_size →
            (tB.ranker.drop (tB.ranker.length - numPairs tB.pop_size)).getD idx 0 ≠ j) →
          (tB.exploit_explore uZero).population.getD j default
            = tB.population.getD j default)) :=
  ⟨rfl, rfl, exploit_explore_pairs_spec tB uZero rfl rfl⟩

end PBT

namespace PBT

/-! ### C7 -/

/-- Modelled from the spec (§4.2): the claim's first formula,
`uniform(base/scale, base*scale) * base_value`, taken literally — a uniform
draw over `[base/scale, base*scale]` multiplied by the base value once more.
Used only to compare against the code's initialization. -/
def specInitFormula (value scale w : ℚ) : ℚ :=
  uniform (value / scale) (value * scale) w * value

theorem uniform_rescale (s v w : ℚ) :
    uniform (1 / s) s w * v = uniform (v / s) (v * s) w := by
  by_cases hs : s = 0
  · subst hs; simp [uniform]
  · field_simp [uniform]; ring

/-- C7 counterexample: for base value 2, scale 2, unit draw 0 the code
(lines 90–91) produces `uniform(1/2, 2) * 2 = 1`, but the claim's formula
`uniform(base/scale, base*scale) * base_value` gives `uniform(1, 4) * 2 = 2`:
the claim's first expression multiplies by the base value twice, and it is
not equivalent to the spec's other phrasing (a draw from
`[value/scale, value*scale]`), which the code does implement. -/
theorem init_formula_counterexample :
    randHyper [("lr", 2)] uZero 0 [("lr", 2)] = Except.ok [("lr", 1)]
    ∧ specInitFormula 2 2 0 = 2
    ∧ (1 : ℚ) ≠ 2 := by
  refine ⟨?_, ?_, by norm_num⟩
  · norm_num [randHyper, dictGet, uniform, uZero]
  · norm_num [specInitFormula, uniform]

/-- C7 (amended): each worker's initial value for a parameter with base value
`v` and scale `s` is `uniform(1/s, s) * v` (one fresh unit draw per worker and
parameter, in order), which equals `uniform(v/s, v*s)` — i.e. a value drawn
uniformly from `[value/scale, value*scale]`, the spec's §3 phrasing.  The
spec's §4.2 formula `uniform(base/scale, base*scale) * base_value` is not
what the code computes. -/
theorem init_randomization_values (ps g : Nat) (c : Collab)
    (scales : List (String × ℚ)) (config : Config) (e : ℚ × ℚ) (r : String)
    (u : Nat → ℚ) (t : PBTTrainer)
    (h : PBTTrainer.init ps g c scales config e r u = Except.ok t)
    (i j : Nat) (hi : i < ps) (hj : j < config.hyperparameters.length) :
    ∃ s, dictGet scales (config.hyperparameters.getD j default).1 = Except.ok s
      ∧ ((t.population.getD i default).config.hyperparameters).getD j default
          = ((config.hyperparameters.getD j default).1,
             uniform (1 / s) s (u (i * config.hyperparameters.length + j))
               * (config.hyperparameters.getD j default).2)
      ∧ uniform (1 / s) s (u (i * config.hyperparameters.length + j))
            * (config.hyperparameters.getD j default).2
          = uniform ((config.hyperparameters.getD j default).2 / s)
              ((config.hyperparameters.getD j default).2 * s)
              (u (i * config.hyperparameters.length + j)) := by
  obtain ⟨hpop, -⟩ := init_ok_elim ps g c scales config e r u t h
  obtain ⟨hps, hr, hcfg, -⟩ :=
    mkPopulation_ok_getD c scales config u ps 0 t.population hpop i hi
  obtain ⟨s, hs, hval⟩ :=
    randHyper_ok_getD scales u config.hyperparameters hps
      (0 + i * config.hyperparameters.length) hr j hj
  refine ⟨s, hs, ?_, uniform_rescale s _ _⟩
  rw [hcfg]
  simpa [Nat.zero_add] using hval

/-- A base configuration with one hyperparameter `lr = 2` (scale 1 in the
witness, so its initial value stays 2). -/
def cfg7 : Config := ⟨0, [("lr", 2)], [], []⟩

/-- The scheduler state `init 1 0 cColl [("lr",1)] cfg7 (1.2,0.8) "high" uZero`
produces. -/
def t7 : PBTTrainer :=
  ⟨1, 0, 0, "high", (12 / 10, 8 / 10), cfg7, cColl, [], [],
    [⟨⟨0, [("lr", 2)]⟩, ⟨0, [("lr", 2)], [], []⟩, [], 0⟩]⟩

/-- Witness for C7's amended theorem at a concrete successful construction. -/
theorem init_randomization_values_witness :
    ∃ s, dictGet [("lr", 1)] (cfg7.hyperparameters.getD 0 default).1 = Except.ok s
      ∧ ((t7.population.getD 0 default).config.hyperparameters).getD 0 default
          = ((cfg7.hyperparameters.getD 0 default).1,
             uniform (1 / s) s (uZero (0 * cfg7.hyperparameters.length + 0))
               * (cfg7.hyperparameters.getD 0 default).2)
      ∧ uniform (1 / s) s (uZero (0 * cfg7.hyperparameters.length + 0))
            * (cfg7.hyperparameters.getD 0 default).2
          = uniform ((cfg7.hyperparameters.getD 0 default).2 / s)
              ((cfg7.hyperparameters.getD 0 default).2 * s)
              (uZero (0 * cfg7.hyperparameters.length + 0)) :=
  init_randomization_values 1 0 cColl [("lr", 1)] cfg7 (12 / 10, 8 / 10) "high" uZero t7
    (by simp [PBTTrainer.init, mkPopulation, randHyper, dictGet, uniform, Worker.init,
      cColl, cfg7, t7])
    0 0 (by decide) (by decide)

/-! ### C8 -/

/-- The empty-hyperparameter base configuration used by the C8 witness. -/
def cfg8 : Config := ⟨0, [], [], []⟩

/-- The scheduler `init 1 2 cColl [] cfg8 (1.2,0.8) "high" uZero` produces. -/
def t8 : PBTTrainer :=
  ⟨1, 2, 0, "high", (12 / 10, 8 / 10), cfg8, cColl, [], [], [⟨⟨0, []⟩, cfg8, [], 0⟩]⟩

/-- C8: starting from any freshly constructed scheduler, `run()` leaves the
scores history and the losses history with exactly `generations` entries
(one appended per completed generation) and the `generation` counter equal to
`generations`. -/
theorem run_histories_length (ps g : Nat) (c : Collab) (scales : List (String × ℚ))
    (config : Config) (e : ℚ × ℚ) (r : String) (u0 : Nat → ℚ) (u : Nat → Nat → ℚ)
    (t : PBTTrainer) (h : PBTTrainer.init ps g c scales config e r u0 = Except.ok t) :
    (t.run u).scores.length = g ∧ (t.run u).losses.length = g
      ∧ (t.run u).generation = g := by
  obtain ⟨-, -, hgens, hgen, -, -, -, hsc, hls⟩ :=
    init_ok_elim ps g c scales config e r u0 t h
  have hr := run_stats t u
  refine ⟨?_, ?_, ?_⟩
  · rw [hr.1, hsc, hgens]; simp
  · rw [hr.2.1, hls, hgens]; simp
  · rw [hr.2.2.1, hgen, hgens]; omega

/-- Witness for C8 at a concrete construction with 2 generations. -/
theorem run_histories_length_witness :
    (t8.run uuZero).scores.length = 2 ∧ (t8.run uuZero).losses.length = 2
      ∧ (t8.run uuZero).generation = 2 :=
  run_histories_length 1 2 cColl [] cfg8 (12 / 10, 8 / 10) "high" uZero uuZero t8 rfl

/-! ### C9 -/

/-- C9: over any sequence of scheduler operations after population creation
(`run_generation`, `exploit_explore` with any draws, whole `run` calls — and
`ranker`, which is read-only), every member's config `trainer` and
`evaluator` subtrees are exactly what they were at creation. -/
theorem trainer_evaluator_subtrees_invariant (ops : List SchedOp) (t : PBTTrainer) :
    (applyOps t ops).population.map (fun w => (w.config.trainer, w.config.evaluator))
      = t.population.map (fun w => (w.config.trainer, w.config.evaluator)) := by
  have hproj : ∀ (s : PBTTrainer),
      s.population.map (fun w => (w.config.trainer, w.config.evaluator))
        = (s.population.map (fun w => w.config)).map (fun c => (c.trainer, c.evaluator)) := by
    intro s; rw [List.map_map]; rfl
  rw [hproj, hproj, applyOps_map_config]

/-! ### C10 -/

/-- C10: only the exact string `'high'` selects the maximize ordering in
`ranker()`.  For every other `rank` value — `'low'`, `'maximize'`, any
misspelling — the scores are sorted ascending directly, i.e. the scheduler
silently behaves as minimize; and construction performs no validation on the
rank value: `init` with any `rank` succeeds or fails exactly as with
`'high'`, differing only in the stored `rank` field. -/
theorem rank_high_is_only_maximize (t : PBTTrainer) (h : t.rank ≠ "high")
    (ps g : Nat) (c : Collab) (scales : List (String × ℚ)) (config : Config)
    (e : ℚ × ℚ) (r : String) (u : Nat → ℚ) :
    t.ranker = isortKey (fun k => t.lastScores.getD k 0)
        (List.range t.lastScores.length)
    ∧ PBTTrainer.init ps g c scales config e r u
      = Except.map (fun s => { s with rank := r })
          (PBTTrainer.init ps g c scales config e "high" u) := by
  constructor
  · have hb : ¬ ((t.rank == "high") = true) := by
      simp only [beq_iff_eq]; exact h
    simp only [PBTTrainer.ranker, if_neg hb]
  · rw [PBTTrainer.init, PBTTrainer.init]
    cases hm : mkPopulation c scales config u 0 ps with
    | error err => rfl
    | ok pop => rfl

/-- A scheduler state whose rank direction is the spec-level name
`"maximize"` — which the code does not recognize. -/
def tC10 : PBTTrainer :=
  ⟨2, 1, 0, "maximize", (12 / 10, 8 / 10), cfg8, cColl, [], [[1, 2]],
    [mkW 1 [], mkW 2 []]⟩

/-- Witness for C10: with `rank = "maximize"` the ranker sorts ascending
(minimize behavior), and a concrete construction with rank `"maximize"`
equals the `"high"` construction with only the stored field changed. -/
theorem rank_high_is_only_maximize_witness :
    tC10.rank ≠ "high"
    ∧ (tC10.ranker = isortKey (fun k => tC10.lastScores.getD k 0)
          (List.range tC10.lastScores.length)
      ∧ PBTTrainer.init 1 2 cColl [] cfg8 (12 / 10, 8 / 10) "maximize" uZero
        = Except.map (fun s => { s with rank := "maximize" })
            (PBTTrainer.init 1 2 cColl [] cfg8 (12 / 10, 8 / 10) "high" uZero)) :=
  ⟨by decide,
    rank_high_is_only_maximize tC10 (by decide) 1 2 cColl [] cfg8 (12 / 10, 8 / 10)
      "maximize" uZero⟩

end PBT
